import Mathlib

/-!
Shallow embedding of `src/src/nets/gat.py` (GATConv and the stacked GAT
variants) over exact rational arithmetic.  Tensors are embedded as lists of
rows of rationals; the real exponential used by the segmented softmax is
abstracted as a parameter `e : ℚ → ℚ` (every property proved about the
softmax assumes only that `e` is strictly positive, which is the sole
property of `exp` the normalization relies on).  Dropout randomness is
embedded as an explicit Boolean mask.
-/

namespace GatNet

/-- A matrix: list of rows of rationals (embedding a 2-D tensor). -/
abbrev Mat := List (List ℚ)

/-- Entry access with zero default, embedding tensor indexing. -/
def entry (X : Mat) (n k : ℕ) : ℚ := (X.getD n []).getD k 0

/-- Dot product of two equal-length vectors (truncating zip). -/
def dot (a b : List ℚ) : ℚ := ((a.zip b).map (fun q => q.1 * q.2)).sum

/-- A bias-free linear layer applied to one feature vector:
row `k` of the output is `dot (W k) v` (embeds `torch.nn.Linear(..., bias=False)`). -/
def linApply (W : Mat) (v : List ℚ) : List ℚ := W.map (fun row => dot row v)

/-- The linear projection `self.lin_l(x)` applied row-wise to the feature
matrix (as in `GATConv.forward`, single-tensor branch). -/
def linForward (W : Mat) (X : Mat) : Mat := X.map (linApply W)

/-- `F.leaky_relu` with the given negative slope. -/
def leakyRelu (slope : ℚ) (x : ℚ) : ℚ := if 0 ≤ x then x else slope * x

/-- Maximum of a list (head as default), embedding the per-group maximum
subtracted by the numerically-stable segmented softmax. -/
def maxD (l : List ℚ) : ℚ := l.foldr max (l.headD 0)

/-- The scores of the group keyed by destination `i` in a keyed score list
(embeds grouping by the `index` array in `torch_geometric.utils.softmax`). -/
def groupOf (l : List (ℕ × ℚ)) (i : ℕ) : List ℚ :=
  (l.filter (fun p => p.1 == i)).map Prod.snd

/-- The normalized softmax coefficient of a score `a` belonging to the group
of destination `i`: the stabilized exponential divided by the group total. -/
def softmaxCoeff (e : ℚ → ℚ) (l : List (ℕ × ℚ)) (i : ℕ) (a : ℚ) : ℚ :=
  e (a - maxD (groupOf l i)) /
    ((groupOf l i).map (fun b => e (b - maxD (groupOf l i)))).sum

/-- Segmented softmax over a list of (destination, score) pairs, embedding
`softmax(alpha, index, ptr, size_i)` in `GATConv.message`. -/
def segSoftmax (e : ℚ → ℚ) (l : List (ℕ × ℚ)) : List (ℕ × ℚ) :=
  l.map (fun p => (p.1, softmaxCoeff e l p.1 p.2))

/-- Removal of self-loops from an edge list, embedding
`remove_self_loops(edge_index)` (keeps edges whose endpoints differ). -/
def removeSelfLoops (edges : List (ℕ × ℕ)) : List (ℕ × ℕ) :=
  edges.filter (fun ed => ed.1 != ed.2)

/-- Appending one self-loop per node index below `numNodes`, embedding
`add_self_loops(edge_index, num_nodes=num_nodes)`. -/
def addSelfLoops (numNodes : ℕ) (edges : List (ℕ × ℕ)) : List (ℕ × ℕ) :=
  edges ++ (List.range numNodes).map (fun k => (k, k))

/-- The strip-then-append self-loop adjustment performed by
`GATConv.forward` on edge-list input. -/
def selfLoopAdjust (numNodes : ℕ) (edges : List (ℕ × ℕ)) : List (ℕ × ℕ) :=
  addSelfLoops numNodes (removeSelfLoops edges)

/-- The node count used for self-loop insertion in `GATConv.forward`:
`num_nodes = x_l.size(0)`, reduced by `min` with `x_r.size(0)` when the
target-side features are present, and overridden by `min(size[0], size[1])`
when an explicit `size` is given. -/
def gatSelfLoopNumNodes (nL : ℕ) (nR : Option ℕ) (size : Option (ℕ × ℕ)) : ℕ :=
  let n := match nR with
    | none => nL
    | some m => min nL m
  match size with
  | none => n
  | some s => min s.1 s.2

/-- The edge set actually consumed by message passing: self-loop adjusted
when `is_add_self_loops` is set, unchanged otherwise.  In the homogeneous
(single feature tensor) branch `x_l` and `x_r` coincide, so both node counts
are the projected row count. -/
def gatAdjustedEdges (xp : Mat) (edges : List (ℕ × ℕ)) (size : Option (ℕ × ℕ))
    (asl : Bool) : List (ℕ × ℕ) :=
  if asl then
    selfLoopAdjust (gatSelfLoopNumNodes xp.length (some xp.length) size) edges
  else edges

/-- The learned state and configuration of one `GATConv` layer (homogeneous
single-tensor branch, where `lin_r = lin_l`).  `lin_l` has `heads *
out_channels` rows; `att_l`, `att_r` have `heads` rows of `out_channels`. -/
structure GATParams where
  heads : ℕ
  out_channels : ℕ
  concat : Bool
  negative_slope : ℚ
  dropout : ℚ
  lin_l : Mat
  att_l : Mat
  att_r : Mat
  bias : Option (List ℚ)

/-- The mutable per-instance cache `self._alpha` of a `GATConv` layer. -/
structure GATConvState where
  _alpha : Option (List (List ℚ))

/-- Per-node per-head raw attention term: `(x_l * att).sum(dim=-1)` read at
node `n`, head `h`, where the projected features are stored flat with the
`view(-1, H, C)` layout (entry `h*C + c`). -/
def alphaScore (C : ℕ) (att : Mat) (xp : Mat) (n h : ℕ) : ℚ :=
  ((List.range C).map (fun c => entry xp n (h * C + c) * entry att h c)).sum

/-- Keyed pre-softmax edge scores for head `h`: for each edge `(src, dst)`
the pair `(dst, leaky_relu(alpha_l[src] + alpha_r[dst]))`, as computed in
`GATConv.message` (`alpha_j + alpha_i` then `F.leaky_relu`), keyed by the
destination index used for the segmented softmax. -/
def edgeScores (slope : ℚ) (C : ℕ) (attL attR : Mat) (xp : Mat)
    (edges : List (ℕ × ℕ)) (h : ℕ) : List (ℕ × ℚ) :=
  edges.map (fun ed =>
    (ed.2, leakyRelu slope (alphaScore C attL xp ed.1 h + alphaScore C attR xp ed.2 h)))

/-- The normalized (post-softmax, pre-dropout) attention coefficients for
head `h`, keyed by destination node — the value stored into `self._alpha`. -/
def gatNormalizedCoeffs (e : ℚ → ℚ) (p : GATParams) (xp : Mat)
    (edges : List (ℕ × ℕ)) (h : ℕ) : List (ℕ × ℚ) :=
  segSoftmax e (edgeScores p.negative_slope p.out_channels p.att_l p.att_r xp edges h)

/-- The per-edge coefficient list (parallel to the edge list) for head `h`. -/
def headCoeffList (e : ℚ → ℚ) (p : GATParams) (xp : Mat)
    (edges : List (ℕ × ℕ)) (h : ℕ) : List ℚ :=
  (gatNormalizedCoeffs e p xp edges h).map Prod.snd

/-- `F.dropout` on a coefficient list: identity when not training; when
training, each kept entry is rescaled by `1/(1-p)` and masked entries are
zeroed (the mask embeds the sampled randomness). -/
def dropoutList (training : Bool) (prob : ℚ) (mask : ℕ → Bool) (l : List ℚ) : List ℚ :=
  if training then
    ((List.range l.length).zip l).map (fun q => if mask q.1 then 0 else q.2 / (1 - prob))
  else l

/-- One entry of the aggregated (scatter-add by destination) output:
destination `d`, head `h`, channel `c` — the sum over incoming edges of the
source feature entry scaled by its dropout-applied attention coefficient
(`x_j * alpha.unsqueeze(-1)` with additive aggregation). -/
def aggEntry (e : ℚ → ℚ) (p : GATParams) (xp : Mat) (edges : List (ℕ × ℕ))
    (training : Bool) (mask : ℕ → ℕ → Bool) (d h c : ℕ) : ℚ :=
  (((edges.zip (dropoutList training p.dropout (fun k => mask k h)
        (headCoeffList e p xp edges h))).filter
      (fun q => q.1.2 == d)).map
    (fun q => entry xp q.1.1 (h * p.out_channels + c) * q.2)).sum

/-- The combined output row for destination node `d`: head concatenation
(`out.view(-1, heads*out_channels)`) or head average (`out.mean(dim=1)`). -/
def gatCombineRow (e : ℚ → ℚ) (p : GATParams) (xp : Mat) (edges : List (ℕ × ℕ))
    (training : Bool) (mask : ℕ → ℕ → Bool) (d : ℕ) : List ℚ :=
  if p.concat then
    (List.range (p.heads * p.out_channels)).map
      (fun k => aggEntry e p xp edges training mask d (k / p.out_channels) (k % p.out_channels))
  else
    (List.range p.out_channels).map
      (fun c => ((List.range p.heads).map
          (fun h => aggEntry e p xp edges training mask d h c)).sum / (p.heads : ℚ))

/-- The exported attention matrix (one row per edge, one column per head):
the pre-dropout normalized coefficients, as cached in `self._alpha`. -/
def gatAlphaMat (e : ℚ → ℚ) (p : GATParams) (xp : Mat)
    (edges : List (ℕ × ℕ)) : List (List ℚ) :=
  (List.range edges.length).map (fun k =>
    (List.range p.heads).map (fun h => (headCoeffList e p xp edges h).getD k 0))

/-- `self.propagate(...)`: the aggregated per-node output rows (one row per
destination slot; the row count is `size[1]` when an explicit size is given,
else the projected node count), paired with the instance state as left by
`GATConv.message` — `self._alpha` populated with the normalized coefficients. -/
def gatPropagate (e : ℚ → ℚ) (p : GATParams) (xp : Mat) (edges : List (ℕ × ℕ))
    (size : Option (ℕ × ℕ)) (training : Bool) (mask : ℕ → ℕ → Bool) :
    Mat × GATConvState :=
  ((List.range (match size with | some s => s.2 | none => xp.length)).map
      (fun d => gatCombineRow e p xp edges training mask d),
   ⟨some (gatAlphaMat e p xp edges)⟩)

/-- `out += self.bias` (no-op when the layer has no bias). -/
def addBias (bias : Option (List ℚ)) (row : List ℚ) : List ℚ :=
  match bias with
  | none => row
  | some b => (List.range row.length).map (fun k => row.getD k 0 + b.getD k 0)

/-- The output feature matrix of `GATConv.forward` (after head combination
and bias). -/
def gatOut (e : ℚ → ℚ) (p : GATParams) (X : Mat) (edges : List (ℕ × ℕ))
    (size : Option (ℕ × ℕ)) (asl : Bool) (training : Bool)
    (mask : ℕ → ℕ → Bool) : Mat :=
  ((gatPropagate e p (linForward p.lin_l X)
      (gatAdjustedEdges (linForward p.lin_l X) edges size asl) size training mask).1).map
    (addBias p.bias)

/-- The value returned by `GATConv.forward`: either `(out, (edge_index,
alpha))` when the attention-export branch is taken, or `(out, edge_index)`. -/
inductive GATRet where
  | withAttn : Mat → List (ℕ × ℕ) → List (List ℚ) → GATRet
  | plain : Mat → List (ℕ × ℕ) → GATRet

/-- The output feature matrix carried by a `GATConv.forward` return value. -/
def retOut : GATRet → Mat
  | .withAttn o _ _ => o
  | .plain o _ => o

/-- The edge structure carried by a `GATConv.forward` return value. -/
def retEdges : GATRet → List (ℕ × ℕ)
  | .withAttn _ es _ => es
  | .plain _ es => es

/-- Whether the return value is of the attention-export form. -/
def isWithAttn : GATRet → Bool
  | .withAttn _ _ _ => true
  | .plain _ _ => false

/-- `GATConv.forward` (single feature tensor, edge-list input) as a state
transformer on the layer instance: projection, self-loop adjustment,
propagation (which populates `self._alpha` in `message`), read-out of the
cache into a local, clearing of the cache (`self._alpha = None`), head
combination, bias, and the `isinstance(return_attention_weights, bool)`
export branch.  `raw` embeds the tri-state `return_attention_weights`
argument (`none` = Python `None`, `some b` = a Boolean). -/
def gatForwardSt (e : ℚ → ℚ) (p : GATParams) (st : GATConvState) (X : Mat)
    (edges : List (ℕ × ℕ)) (size : Option (ℕ × ℕ)) (raw : Option Bool)
    (asl : Bool) (training : Bool) (mask : ℕ → ℕ → Bool) :
    GATRet × GATConvState :=
  let xp := linForward p.lin_l X
  let edgesAdj := gatAdjustedEdges xp edges size asl
  let alpha := (gatPropagate e p xp edgesAdj size training mask).2._alpha
  match raw with
  | some _ =>
      (GATRet.withAttn (gatOut e p X edges size asl training mask) edgesAdj
        (alpha.getD []), ⟨none⟩)
  | none =>
      (GATRet.plain (gatOut e p X edges size asl training mask) edgesAdj, ⟨none⟩)

/-- The assertion message of the rank precondition in `GATConv.forward`. -/
def staticGraphMsg : String := "Static graphs not supported in GATConv."

/-- `GATConv.forward` including the input-rank precondition
`assert x.dim() == 2`: `xdim` embeds `x.dim()`; a failed assertion is an
exceptional exit carrying the assertion message, taken before any
projection or message passing. -/
def gatForwardChecked (e : ℚ → ℚ) (p : GATParams) (st : GATConvState)
    (xdim : ℕ) (X : Mat) (edges : List (ℕ × ℕ)) (size : Option (ℕ × ℕ))
    (raw : Option Bool) (asl : Bool) (training : Bool)
    (mask : ℕ → ℕ → Bool) : Except String (GATRet × GATConvState) :=
  if xdim = 2 then
    Except.ok (gatForwardSt e p st X edges size raw asl training mask)
  else
    Except.error staticGraphMsg

/-- A reference to the parameter set of one sub-module of a stacked model
(`conv1.parameters()`, `conv2.parameters()`, or `convx[i].parameters()`). -/
inductive LayerRef where
  | conv1 : LayerRef
  | conv2 : LayerRef
  | convx : ℕ → LayerRef
deriving DecidableEq

/-- The `reg_params` / `non_reg_params` attribute pair of a stacked model,
each listing the sub-modules whose parameters it holds. -/
structure ParamGrouping where
  reg_params : List LayerRef
  non_reg_params : List LayerRef
deriving DecidableEq

/-- The static configuration of one constructed `GATConv` sub-layer:
`GATConv(in_channels, out_channels, heads, concat)`. -/
structure ConvSpec where
  in_channels : ℕ
  out_channels : ℕ
  heads : ℕ
  concat : Bool
deriving DecidableEq

/-- What a stacked-model constructor builds: its conv layers (in definition
order), its dropout rate, and its `reg_params`/`non_reg_params` attribute
pair — `none` when the constructor defines no such attributes. -/
structure ModelSpec where
  convs : List ConvSpec
  dropout : ℚ
  paramGroups : Option (ParamGrouping)
deriving DecidableEq

/-- `StandGAT1.__init__`: one conv `GATConv(nfeat, nclass, heads=1)`;
`reg_params = []`, `non_reg_params = conv1.parameters()`. -/
def standGAT1Init (nfeat nhid nclass : ℕ) (dropout : ℚ) : ModelSpec :=
  ⟨[⟨nfeat, nclass, 1, true⟩], dropout, some ⟨[], [LayerRef.conv1]⟩⟩

/-- `StandGAT2.__init__`: `GATConv(nfeat, nhid//4, heads=4)` then
`GATConv(nhid, nclass, heads=1, concat=False)`; `reg_params` holds the
parameters of the first conv, `non_reg_params` those of the second. -/
def standGAT2Init (nfeat nhid nclass : ℕ) (dropout : ℚ) : ModelSpec :=
  ⟨[⟨nfeat, nhid / 4, 4, true⟩, ⟨nhid, nclass, 1, false⟩], dropout,
   some ⟨[LayerRef.conv1], [LayerRef.conv2]⟩⟩

/-- `StandGATX.__init__`: `conv1 = GATConv(nfeat, nhid//4, heads=4)`,
`conv2 = GATConv(nhid, nclass)` (default `heads=1, concat=True`), and
`nlayer-2` middle convs `GATConv(nhid, nhid//4, heads=4)`; `reg_params`
holds the parameters of conv1 and of the middle convs, `non_reg_params` those of conv2. -/
def standGATXInit (nfeat nhid nclass : ℕ) (dropout : ℚ) (nlayer : ℕ) : ModelSpec :=
  ⟨⟨nfeat, nhid / 4, 4, true⟩ :: ⟨nhid, nclass, 1, true⟩ ::
     (List.range (nlayer - 2)).map (fun _ => ⟨nhid, nhid / 4, 4, true⟩),
   dropout,
   some ⟨LayerRef.conv1 :: (List.range (nlayer - 2)).map LayerRef.convx,
         [LayerRef.conv2]⟩⟩

/-- `StandGATEncoder.__init__`: `GATConv(nfeat, nembed//8, heads=8)` and
`GATConv(nhid, nembed//8, heads=8)`; the constructor assigns no
`reg_params`/`non_reg_params` attributes. -/
def standGATEncoderInit (nfeat nhid nembed : ℕ) (dropout : ℚ) : ModelSpec :=
  ⟨[⟨nfeat, nembed / 8, 8, true⟩, ⟨nhid, nembed / 8, 8, true⟩], dropout, none⟩

/-- `StandGATClssifier.__init__`: `GATConv(nembed, nhid//8, heads=8)` and
`GATConv(nhid, nclass, heads=1, concat=False)` (plus a plain
`nn.Linear(nhid, 2)` real/fake head, not a `GATConv`); the constructor
assigns no `reg_params`/`non_reg_params` attributes. -/
def standGATClssifierInit (nembed nhid nclass : ℕ) (dropout : ℚ) : ModelSpec :=
  ⟨[⟨nembed, nhid / 8, 8, true⟩, ⟨nhid, nclass, 1, false⟩], dropout, none⟩

/-- `create_gat(nfeat, nhid, nclass, dropout, nlayer, nembed=64)`: selects
the variant by `nlayer` (1, 2, 3, 4); any other depth constructs nothing
and leaves the local `model` unset, embedded as `none`.  For `nlayer == 4`
the classifier is called as `StandGATClssifier(nhid, nembed, nclass,
dropout)`. -/
def create_gat (nfeat nhid nclass : ℕ) (dropout : ℚ) (nlayer : ℤ)
    (nembed : ℕ) : Option ModelSpec :=
  if nlayer = 1 then some (standGAT1Init nfeat nhid nclass dropout)
  else if nlayer = 2 then some (standGAT2Init nfeat nhid nclass dropout)
  else if nlayer = 3 then some (standGATEncoderInit nfeat nhid nembed dropout)
  else if nlayer = 4 then some (standGATClssifierInit nhid nembed nclass dropout)
  else none

/-- `F.relu` applied elementwise to a feature matrix. -/
def reluMat (X : Mat) : Mat := X.map (fun r => r.map (fun v => max v 0))

/-- `F.dropout` on a feature matrix with a per-entry randomness mask. -/
def dropoutMat (training : Bool) (prob : ℚ) (fmask : ℕ → ℕ → Bool) (X : Mat) : Mat :=
  if training then
    ((List.range X.length).zip X).map (fun q =>
      ((List.range q.2.length).zip q.2).map (fun w =>
        if fmask q.1 w.1 then 0 else w.2 / (1 - prob)))
  else X

/-- The runtime state of a `StandGATX` module: the learned state of its conv layers:
their parameters, and its dropout rate. -/
structure StandGATXModel where
  conv1 : GATParams
  conv2 : GATParams
  convx : List GATParams
  dropout_p : ℚ

/-- The middle-layer loop of `StandGATX.forward`: for each layer in
`convx`, dropout, the conv (threading the updated edge set), then ReLU.
`li` indexes the per-layer randomness masks. -/
def standGATXLoop (e : ℚ → ℚ) (prob : ℚ) (training : Bool)
    (fmask : ℕ → ℕ → ℕ → Bool) (amask : ℕ → ℕ → ℕ → Bool) :
    List GATParams → ℕ → Mat × List (ℕ × ℕ) → Mat × List (ℕ × ℕ)
  | [], _, acc => acc
  | l :: ls, li, acc =>
      let x1 := dropoutMat training prob (fmask li) acc.1
      let r := gatForwardSt e l ⟨none⟩ x1 acc.2 none none true training (amask li)
      standGATXLoop e prob training fmask amask ls (li + 1)
        (reluMat (retOut r.1), retEdges r.1)

/-- The prefix of `StandGATX.forward` before the final conv call: `conv1`
plus ReLU, the middle-layer loop, and the last dropout (source lines
254-263).  Returns the feature matrix handed to `conv2` and the edge set
threaded through the earlier convs. -/
def standGATXPre (e : ℚ → ℚ) (m : StandGATXModel) (training : Bool)
    (fmask amask : ℕ → ℕ → ℕ → Bool) (x : Mat) (adj : List (ℕ × ℕ)) :
    Mat × List (ℕ × ℕ) :=
  let r1 := gatForwardSt e m.conv1 ⟨none⟩ x adj none none true training (amask 0)
  let s := standGATXLoop e m.dropout_p training (fun i => fmask (i + 1))
    (fun i => amask (i + 1)) m.convx 0 (reluMat (retOut r1.1), retEdges r1.1)
  (dropoutMat training m.dropout_p (fmask (m.convx.length + 1)) s.1, s.2)

/-- `StandGATX.forward(x, adj, edge_weight)`: the final line calls
`self.conv2(x, edge_index, edge_weight, is_add_self_loops=...)`, so
`edge_weight` is the third positional argument of `GATConv.forward` and
binds to its `size : Size` parameter — embedded here by passing it into
the `size` slot of `gatForwardSt`. -/
def standGATXForward (e : ℚ → ℚ) (m : StandGATXModel) (training : Bool)
    (fmask amask : ℕ → ℕ → ℕ → Bool) (x : Mat) (adj : List (ℕ × ℕ))
    (edge_weight : Option (ℕ × ℕ)) : Mat :=
  retOut ((gatForwardSt e m.conv2 ⟨none⟩
    (standGATXPre e m training fmask amask x adj).1
    (standGATXPre e m training fmask amask x adj).2
    edge_weight none true training (amask (m.convx.length + 1))).1)

lemma sum_map_div (l : List ℚ) (f : ℚ → ℚ) (d : ℚ) :
    (l.map (fun x => f x / d)).sum = (l.map f).sum / d := by
  induction l with
  | nil => simp
  | cons x t ih => simp [ih, add_div]

lemma sum_map_nonneg (l : List ℚ) (f : ℚ → ℚ) (hf : ∀ x, 0 ≤ f x) :
    0 ≤ (l.map f).sum := by
  induction l with
  | nil => simp
  | cons x t ih => simpa using add_nonneg (hf x) ih

lemma sum_map_pos (l : List ℚ) (f : ℚ → ℚ) (hf : ∀ x, 0 < f x) (hl : l ≠ []) :
    0 < (l.map f).sum := by
  cases l with
  | nil => exact absurd rfl hl
  | cons x t =>
      simp only [List.map_cons, List.sum_cons]
      exact add_pos_of_pos_of_nonneg (hf x)
        (sum_map_nonneg t f (fun y => le_of_lt (hf y)))

lemma filter_map_keyed (c : ℕ → ℚ → ℚ) (l : List (ℕ × ℚ)) (i : ℕ) :
    ((l.map (fun p => (p.1, c p.1 p.2))).filter (fun p => p.1 == i)).map Prod.snd
      = ((l.filter (fun p => p.1 == i)).map Prod.snd).map (c i) := by
  induction l with
  | nil => rfl
  | cons x t ih =>
      by_cases h : x.1 = i
      · subst h
        simpa [List.filter_cons] using ih
      · simpa [List.filter_cons, h] using ih

lemma groupOf_ne_nil_of_mem (l : List (ℕ × ℚ)) (i : ℕ)
    (h : ∃ p ∈ l, p.1 = i) : groupOf l i ≠ [] := by
  obtain ⟨p, hp, hpi⟩ := h
  have hmem : p.2 ∈ groupOf l i := by
    unfold groupOf
    exact List.mem_map_of_mem Prod.snd
      (List.mem_filter.2 ⟨hp, by simp [hpi]⟩)
  intro hnil
  rw [hnil] at hmem
  cases hmem

lemma segSoftmax_sum_one (e : ℚ → ℚ) (he : ∀ x, 0 < e x)
    (l : List (ℕ × ℚ)) (i : ℕ) (hne : groupOf l i ≠ []) :
    (((segSoftmax e l).filter (fun p => p.1 == i)).map Prod.snd).sum = 1 := by
  have h1 : ((segSoftmax e l).filter (fun p => p.1 == i)).map Prod.snd
      = (groupOf l i).map (softmaxCoeff e l i) := by
    have := filter_map_keyed (softmaxCoeff e l) l i
    simpa [segSoftmax, groupOf] using this
  rw [h1]
  have h2 : (groupOf l i).map (softmaxCoeff e l i)
      = (groupOf l i).map (fun a =>
          e (a - maxD (groupOf l i)) /
            ((groupOf l i).map (fun b => e (b - maxD (groupOf l i)))).sum) := rfl
  rw [h2, sum_map_div]
  exact div_self (ne_of_gt (sum_map_pos (groupOf l i) _ (fun b => he _) hne))

/-- C1: in `GATConv.forward`, after the segmented-softmax normalization of
`GATConv.message`, for every head and every node that is the destination of
at least one edge of the self-loop-adjusted edge set, the normalized
attention coefficients over the incoming edges of that node sum to 1 (for any
strictly positive exponential function). -/
theorem gatconv_softmax_sums_to_one (e : ℚ → ℚ) (he : ∀ x, 0 < e x)
    (p : GATParams) (X : Mat) (edges : List (ℕ × ℕ))
    (size : Option (ℕ × ℕ)) (h i : ℕ)
    (hi : i ∈ (gatAdjustedEdges (linForward p.lin_l X) edges size true).map Prod.snd) :
    (((gatNormalizedCoeffs e p (linForward p.lin_l X)
        (gatAdjustedEdges (linForward p.lin_l X) edges size true) h).filter
        (fun q => q.1 == i)).map Prod.snd).sum = 1 := by
  apply segSoftmax_sum_one e he
  apply groupOf_ne_nil_of_mem
  obtain ⟨ed, hed, hedi⟩ := List.mem_map.1 hi
  refine ⟨(ed.2, leakyRelu p.negative_slope
      (alphaScore p.out_channels p.att_l (linForward p.lin_l X) ed.1 h +
       alphaScore p.out_channels p.att_r (linForward p.lin_l X) ed.2 h)),
    ?_, hedi⟩
  exact List.mem_map_of_mem _ hed

/-- A concrete 1-head, 1-channel layer used to instantiate theorems. -/
def P0 : GATParams := ⟨1, 1, true, 1 / 5, 0, [[1]], [[1]], [[1]], none⟩

/-- A concrete one-node feature matrix used to instantiate theorems. -/
def X0 : Mat := [[1]]

/-- A concrete strictly positive stand-in for the exponential. -/
def expOne : ℚ → ℚ := fun _ => 1

theorem gatconv_softmax_sums_to_one_witness :
    (∀ x, 0 < expOne x) ∧
    0 ∈ (gatAdjustedEdges (linForward P0.lin_l X0) [] none true).map Prod.snd ∧
    (((gatNormalizedCoeffs expOne P0 (linForward P0.lin_l X0)
        (gatAdjustedEdges (linForward P0.lin_l X0) [] none true) 0).filter
        (fun q => q.1 == 0)).map Prod.snd).sum = 1 :=
  ⟨fun _ => one_pos, by decide,
   gatconv_softmax_sums_to_one expOne (fun _ => one_pos) P0 X0 [] none 0 0 (by decide)⟩

/-- Number of occurrences of the pair `a` in an edge list. -/
def countPair (a : ℕ × ℕ) (l : List (ℕ × ℕ)) : ℕ :=
  (l.filter (fun x => decide (x = a))).length

lemma countPair_cons (a x : ℕ × ℕ) (l : List (ℕ × ℕ)) :
    countPair a (x :: l) = (if x = a then 1 else 0) + countPair a l := by
  unfold countPair
  rw [List.filter_cons]
  by_cases h : x = a <;> simp [h, Nat.add_comm]

lemma countPair_append (a : ℕ × ℕ) (l1 l2 : List (ℕ × ℕ)) :
    countPair a (l1 ++ l2) = countPair a l1 + countPair a l2 := by
  unfold countPair
  rw [List.filter_append, List.length_append]

lemma countPair_remove (edges : List (ℕ × ℕ)) (n : ℕ) :
    countPair (n, n) (removeSelfLoops edges) = 0 := by
  induction edges with
  | nil => rfl
  | cons ed t ih =>
      unfold removeSelfLoops at ih ⊢
      rw [List.filter_cons]
      by_cases h : (ed.1 != ed.2) = true
      · rw [if_pos h, countPair_cons]
        have hne : ¬ ed = (n, n) := by
          intro he
          rw [he] at h
          simp at h
        simp [hne, ih]
      · rw [if_neg h]
        exact ih

lemma countPair_loops (nn n : ℕ) :
    countPair (n, n) ((List.range nn).map (fun k => (k, k))) =
      if n < nn then 1 else 0 := by
  induction nn with
  | zero => simp [countPair]
  | succ m ih =>
      rw [List.range_succ, List.map_append, countPair_append, ih]
      have hsing : countPair (n, n) (List.map (fun k => (k, k)) [m])
          = if m = n then 1 else 0 := by
        by_cases h2 : m = n <;> simp [countPair, Prod.ext_iff, h2]
      rw [hsing]
      split_ifs <;> omega

/-- C2: with self-loop adjustment enabled on an edge-list input, the edge
set consumed by the attention computation contains exactly one self-loop
for every node index below `num_nodes` and none at any other index,
regardless of the self-loops present in the input; `num_nodes` is
`min(size[0], size[1])` when an explicit size is given, else the minimum of
the source-side and target-side node counts. -/
theorem gatconv_self_loops_exact :
    (∀ (xp : Mat) (edges : List (ℕ × ℕ)) (size : Option (ℕ × ℕ)) (n : ℕ),
        countPair (n, n) (gatAdjustedEdges xp edges size true)
          = if n < gatSelfLoopNumNodes xp.length (some xp.length) size then 1 else 0)
    ∧ (∀ (nL : ℕ) (nR : Option ℕ) (a b : ℕ),
        gatSelfLoopNumNodes nL nR (some (a, b)) = min a b)
    ∧ (∀ nL nR : ℕ, gatSelfLoopNumNodes nL (some nR) none = min nL nR) := by
  refine ⟨?_, fun nL nR a b => rfl, fun nL nR => rfl⟩
  intro xp edges size n
  show countPair (n, n) (selfLoopAdjust _ edges) = _
  unfold selfLoopAdjust addSelfLoops
  rw [countPair_append, countPair_remove, countPair_loops, Nat.zero_add]

lemma addBias_length (b : Option (List ℚ)) (row : List ℚ) :
    (addBias b row).length = row.length := by
  cases b <;> simp [addBias]

lemma gatCombineRow_length (e : ℚ → ℚ) (p : GATParams) (xp : Mat)
    (edges : List (ℕ × ℕ)) (training : Bool) (mask : ℕ → ℕ → Bool) (d : ℕ) :
    (gatCombineRow e p xp edges training mask d).length
      = if p.concat then p.heads * p.out_channels else p.out_channels := by
  unfold gatCombineRow
  cases hc : p.concat <;> simp [hc]

/-- C3: every row of the feature matrix returned by `GATConv.forward` has
length `heads * out_channels` when `concat` is set and `out_channels`
(heads averaged) otherwise. -/
theorem gatconv_output_dim (e : ℚ → ℚ) (p : GATParams) (st : GATConvState)
    (X : Mat) (edges : List (ℕ × ℕ)) (size : Option (ℕ × ℕ))
    (raw : Option Bool) (asl training : Bool) (mask : ℕ → ℕ → Bool)
    (row : List ℚ)
    (hrow : row ∈ retOut ((gatForwardSt e p st X edges size raw asl training mask).1)) :
    row.length = if p.concat then p.heads * p.out_channels else p.out_channels := by
  have hro : retOut ((gatForwardSt e p st X edges size raw asl training mask).1)
      = gatOut e p X edges size asl training mask := by
    cases raw <;> rfl
  rw [hro] at hrow
  unfold gatOut gatPropagate at hrow
  obtain ⟨r0, hr0, hre⟩ := List.mem_map.1 hrow
  obtain ⟨d, hd, hdr⟩ := List.mem_map.1 hr0
  rw [← hre, addBias_length, ← hdr, gatCombineRow_length]

lemma gatconv_output_on_X0 :
    retOut ((gatForwardSt expOne P0 ⟨none⟩ X0 [] none none
        true false (fun _ _ => false)).1) = [[1]] := by
  norm_num [gatForwardSt, gatOut, gatPropagate, gatCombineRow, aggEntry,
    headCoeffList, gatNormalizedCoeffs, segSoftmax, edgeScores, alphaScore,
    softmaxCoeff, groupOf, maxD, dropoutList, addBias, gatAdjustedEdges,
    selfLoopAdjust, addSelfLoops, removeSelfLoops, gatSelfLoopNumNodes,
    linForward, linApply, dot, entry, leakyRelu, retOut, P0, X0, expOne,
    List.range_succ, List.filter]

theorem gatconv_output_dim_witness :
    ([1] : List ℚ) ∈ retOut ((gatForwardSt expOne P0 ⟨none⟩ X0 [] none none
        true false (fun _ _ => false)).1)
    ∧ ([1] : List ℚ).length
        = if P0.concat then P0.heads * P0.out_channels else P0.out_channels :=
  ⟨by rw [gatconv_output_on_X0]; exact List.mem_singleton.2 rfl,
   gatconv_output_dim expOne P0 ⟨none⟩ X0 [] none none true false
     (fun _ _ => false) [1]
     (by rw [gatconv_output_on_X0]; exact List.mem_singleton.2 rfl)⟩

/-- C5: the transient cache `_alpha` is populated (set to a non-`None`
value) by the message step inside `propagate`, and every execution path of
`GATConv.forward` leaves the instance with `_alpha = None` on return, for
any prior instance state. -/
theorem gatconv_alpha_cleared (e : ℚ → ℚ) (p : GATParams) (st : GATConvState)
    (X : Mat) (edges : List (ℕ × ℕ)) (size : Option (ℕ × ℕ))
    (raw : Option Bool) (asl training : Bool) (mask : ℕ → ℕ → Bool) :
    ((gatForwardSt e p st X edges size raw asl training mask).2)._alpha = none
    ∧ ((gatPropagate e p (linForward p.lin_l X)
        (gatAdjustedEdges (linForward p.lin_l X) edges size asl) size training
        mask).2)._alpha.isSome = true := by
  refine ⟨?_, rfl⟩
  cases raw <;> rfl

/-- C8: with dropout disabled (`training = False`) and fixed weights, the
result of `GATConv.forward` does not depend on the dropout randomness nor
on the prior instance state: two invocations on identical inputs return
identical results. -/
theorem gatconv_inference_deterministic (e : ℚ → ℚ) (p : GATParams)
    (st1 st2 : GATConvState) (X : Mat) (edges : List (ℕ × ℕ))
    (size : Option (ℕ × ℕ)) (raw : Option Bool) (asl : Bool)
    (m1 m2 : ℕ → ℕ → Bool) :
    gatForwardSt e p st1 X edges size raw asl false m1
      = gatForwardSt e p st2 X edges size raw asl false m2 := by
  cases raw <;> rfl

/-- C9: the attention-export branch of `GATConv.forward` is selected by
`isinstance(return_attention_weights, bool)`, so it is taken for `False`
just as for `True`; only the non-Boolean default `None` yields the plain
`(out, edge_index)` return. -/
theorem gatconv_return_attention_export (e : ℚ → ℚ) (p : GATParams)
    (st : GATConvState) (X : Mat) (edges : List (ℕ × ℕ))
    (size : Option (ℕ × ℕ)) (asl training : Bool) (mask : ℕ → ℕ → Bool) :
    (∀ b : Bool,
      isWithAttn ((gatForwardSt e p st X edges size (some b) asl training mask).1) = true)
    ∧ isWithAttn ((gatForwardSt e p st X edges size none asl training mask).1) = false :=
  ⟨fun _ => rfl, rfl⟩

/-- C6: an input feature tensor whose rank differs from 2 makes
`GATConv.forward` fail its precondition (the `assert x.dim() == 2`)
immediately, returning no output; for rank-2 input that failure branch is
not taken and the forward computation proceeds. -/
theorem gatconv_rank_precondition (e : ℚ → ℚ) (p : GATParams)
    (st : GATConvState) (xdim : ℕ) (X : Mat) (edges : List (ℕ × ℕ))
    (size : Option (ℕ × ℕ)) (raw : Option Bool) (asl training : Bool)
    (mask : ℕ → ℕ → Bool) :
    (xdim ≠ 2 → gatForwardChecked e p st xdim X edges size raw asl training mask
        = Except.error staticGraphMsg)
    ∧ (xdim = 2 → gatForwardChecked e p st xdim X edges size raw asl training mask
        = Except.ok (gatForwardSt e p st X edges size raw asl training mask)) := by
  constructor
  · intro h
    simp [gatForwardChecked, h]
  · intro h
    simp [gatForwardChecked, h]

theorem gatconv_rank_precondition_witness :
    gatForwardChecked expOne P0 ⟨none⟩ 3 X0 [] none none true false (fun _ _ => false)
      = Except.error staticGraphMsg
    ∧ gatForwardChecked expOne P0 ⟨none⟩ 2 X0 [] none none true false (fun _ _ => false)
      = Except.ok (gatForwardSt expOne P0 ⟨none⟩ X0 [] none none true false
          (fun _ _ => false)) :=
  ⟨(gatconv_rank_precondition expOne P0 ⟨none⟩ 3 X0 [] none none true false
      (fun _ _ => false)).1 (by decide),
   (gatconv_rank_precondition expOne P0 ⟨none⟩ 2 X0 [] none none true false
      (fun _ _ => false)).2 rfl⟩

/-- C7: `create_gat` maps depths 1, 2, 3, 4 to the four stacked variants
(1-layer, 2-layer, encoder, classifier — the last called with its argument
shuffle), and every other depth constructs nothing: the result is unset. -/
theorem create_gat_depth_selection (nfeat nhid nclass : ℕ) (dropout : ℚ)
    (nembed : ℕ) :
    create_gat nfeat nhid nclass dropout 1 nembed
        = some (standGAT1Init nfeat nhid nclass dropout)
    ∧ create_gat nfeat nhid nclass dropout 2 nembed
        = some (standGAT2Init nfeat nhid nclass dropout)
    ∧ create_gat nfeat nhid nclass dropout 3 nembed
        = some (standGATEncoderInit nfeat nhid nembed dropout)
    ∧ create_gat nfeat nhid nclass dropout 4 nembed
        = some (standGATClssifierInit nhid nembed nclass dropout)
    ∧ ∀ n : ℤ, n ≠ 1 → n ≠ 2 → n ≠ 3 → n ≠ 4 →
        create_gat nfeat nhid nclass dropout n nembed = none := by
  refine ⟨by norm_num [create_gat], by norm_num [create_gat],
    by norm_num [create_gat], by norm_num [create_gat], ?_⟩
  intro n h1 h2 h3 h4
  simp [create_gat, h1, h2, h3, h4]

theorem create_gat_depth_selection_witness :
    create_gat 3 4 5 0 7 64 = none :=
  (create_gat_depth_selection 3 4 5 0 64).2.2.2.2 7
    (by decide) (by decide) (by decide) (by decide)

/-- C4 counterexample: the claim that every stacked variant exposes the
regularized / non-regularized parameter groups fails on the encoder and
classifier variants, whose constructors assign neither attribute. -/
theorem standgat_param_groups_counterexample :
    (standGATEncoderInit 16 32 64 0).paramGroups = none
    ∧ (standGATClssifierInit 64 32 7 0).paramGroups = none :=
  ⟨rfl, rfl⟩

/-- C4 amended: the 1-layer, 2-layer and N-layer variants expose the
parameter grouping (earlier layers regularized — empty for the 1-layer
variant — and the final conv non-regularized), while the encoder and
classifier variants expose no parameter groups at all. -/
theorem standgat_param_groups_amended (nfeat nhid nclass nembed : ℕ)
    (d : ℚ) (nlayer : ℕ) :
    (standGAT1Init nfeat nhid nclass d).paramGroups
        = some ⟨[], [LayerRef.conv1]⟩
    ∧ (standGAT2Init nfeat nhid nclass d).paramGroups
        = some ⟨[LayerRef.conv1], [LayerRef.conv2]⟩
    ∧ (standGATXInit nfeat nhid nclass d nlayer).paramGroups
        = some ⟨LayerRef.conv1 :: (List.range (nlayer - 2)).map LayerRef.convx,
                [LayerRef.conv2]⟩
    ∧ (standGATEncoderInit nfeat nhid nembed d).paramGroups = none
    ∧ (standGATClssifierInit nembed nhid nclass d).paramGroups = none :=
  ⟨rfl, rfl, rfl, rfl, rfl⟩

/-- C10: in `StandGATX.forward` the `edge_weight` argument is handed to the
final conv as the third positional argument, i.e. into the `size` slot of
`GATConv.forward`; and a `GATConv.forward` call whose `size` slot holds a
pair `(a, b)` self-loop-adjusts its edge set with `num_nodes = min a b`,
treating the value as an explicit node-count pair. -/
theorem standgatx_edge_weight_is_size (e : ℚ → ℚ) (m : StandGATXModel)
    (training : Bool) (fmask amask : ℕ → ℕ → ℕ → Bool) (x : Mat)
    (adj : List (ℕ × ℕ)) (a b : ℕ) :
    standGATXForward e m training fmask amask x adj (some (a, b))
      = retOut ((gatForwardSt e m.conv2 ⟨none⟩
          (standGATXPre e m training fmask amask x adj).1
          (standGATXPre e m training fmask amask x adj).2
          (some (a, b)) none true training (amask (m.convx.length + 1))).1)
    ∧ (∀ (p : GATParams) (X : Mat) (es : List (ℕ × ℕ)) (raw : Option Bool)
        (tr : Bool) (mk : ℕ → ℕ → Bool),
        retEdges ((gatForwardSt e p ⟨none⟩ X es (some (a, b)) raw true tr mk).1)
          = selfLoopAdjust (min a b) es) := by
  refine ⟨rfl, ?_⟩
  intro p X es raw tr mk
  cases raw <;> rfl

end GatNet
